import Mathlib

/-!
Verification of the yr-data-store repository: a shallow embedding of the
DataStore / FetchableDataStore core (src/lib/DataStore.js,
src/lib/HandlerContext.js, src/lib/methods/set.js, src/lib/methods/fetch.js
and the compiled FetchableDataStore) together with proofs about the
behaviour its specification describes.

JavaScript values are embedded as the inductive `JSValue`; plain objects
are ordered association lists of string-keyed fields (JS objects have
unique keys; `getField` returns the first binding).  Machine details that
the claims do not touch (prototype chains, string character indexing,
getters) are not modelled; every modelled branch is translated from the
source file named next to its definition.
-/

namespace YrData

/-- JavaScript values: undefined, null, booleans, numbers (the tree and the
freshness timestamps only ever hold integral millisecond counts, so numbers
are embedded as `Int`), strings, arrays and plain objects. -/
inductive JSValue where
  | undefined : JSValue
  | null : JSValue
  | vbool : Bool → JSValue
  | vnum : Int → JSValue
  | vstr : String → JSValue
  | varr : List JSValue → JSValue
  | vobj : List (String × JSValue) → JSValue

mutual

/-- Structural equality test for `JSValue` (deriving does not handle the
nested inductive). -/
def jsBeq : JSValue → JSValue → Bool
  | .undefined, .undefined => true
  | .null, .null => true
  | .vbool a, .vbool b => a == b
  | .vnum a, .vnum b => a == b
  | .vstr a, .vstr b => a == b
  | .varr a, .varr b => jsBeqList a b
  | .vobj a, .vobj b => jsBeqFields a b
  | _, _ => false

/-- Elementwise `jsBeq` on arrays. -/
def jsBeqList : List JSValue → List JSValue → Bool
  | [], [] => true
  | a :: as, b :: bs => jsBeq a b && jsBeqList as bs
  | _, _ => false

/-- Elementwise `jsBeq` on field lists. -/
def jsBeqFields : List (String × JSValue) → List (String × JSValue) → Bool
  | [], [] => true
  | (ka, va) :: as, (kb, vb) :: bs => ka == kb && jsBeq va vb && jsBeqFields as bs
  | _, _ => false

end

set_option maxHeartbeats 1000000 in
theorem jsBeq_iff : ∀ a b : JSValue, jsBeq a b = true ↔ a = b := by
  have h := jsBeq.induct
    (fun a b => jsBeq a b = true ↔ a = b)
    (fun a b => jsBeqFields a b = true ↔ a = b)
    (fun a b => jsBeqList a b = true ↔ a = b)
  apply h
  · simp [jsBeq]
  · simp [jsBeq]
  · intro a b; simp [jsBeq]
  · intro a b; simp [jsBeq]
  · intro a b; simp [jsBeq]
  · intro a b ih; simp [jsBeq, ih]
  · intro a b ih; simp [jsBeq, ih]
  · intro t x h1 h2 h3 h4 h5 h6 h7
    cases t <;> cases x <;>
      first
        | exact (h1 rfl rfl).elim
        | exact (h2 rfl rfl).elim
        | exact (h3 _ _ rfl rfl).elim
        | exact (h4 _ _ rfl rfl).elim
        | exact (h5 _ _ rfl rfl).elim
        | exact (h6 _ _ rfl rfl).elim
        | exact (h7 _ _ rfl rfl).elim
        | simp [jsBeq]
  · simp [jsBeqList]
  · intro a as b bs ih1 ih2; simp [jsBeqList, ih1, ih2]
  · intro t x h1 h2
    cases t <;> cases x <;>
      first
        | exact (h1 rfl rfl).elim
        | exact (h2 _ _ _ _ rfl rfl).elim
        | simp [jsBeqList]
  · simp [jsBeqFields]
  · intro ka va as kb vb bs ih1 ih2
    simp [jsBeqFields, ih1, ih2]
  · intro t x h1 h2
    cases t <;> cases x <;>
      first
        | exact (h1 rfl rfl).elim
        | (rename_i p ps q qs; exact (h2 p.1 p.2 ps q.1 q.2 qs (by simp) (by simp)).elim)
        | simp [jsBeqFields]

instance : DecidableEq JSValue := fun a b => decidable_of_iff _ (jsBeq_iff a b)

/-! ## String helpers

The source manipulates keys with `charAt`, `slice`, `split('/')`, `join`
and `indexOf(...) == 0`.  These are embedded over the character list of the
string (`String.data`), which the kernel can evaluate, with the same
observable behaviour on the inputs the store uses. -/

/-- JS `s.indexOf(p) == 0` / `startsWith`: `p` is a prefix of `s`. -/
def strStartsWith (s p : String) : Bool := p.data.isPrefixOf s.data

/-- JS `s.slice(n)`: drop the first `n` characters. -/
def strDrop (s : String) (n : Nat) : String := ⟨s.data.drop n⟩

/-- JS `key.split('/')`, character-level worker. -/
def splitCharsAux : List Char → List Char → List (List Char)
  | [], acc => [acc.reverse]
  | c :: rest, acc =>
      if c = '/' then acc.reverse :: splitCharsAux rest [] else splitCharsAux rest (c :: acc)

/-- JS `key.split('/')`: list of segments; the empty string yields `[""]`. -/
def splitKey (s : String) : List String := (splitCharsAux s.data []).map (fun cs => ⟨cs⟩)

/-- JS `segs.join('/')`. -/
def joinSlash (segs : List String) : String := ⟨List.intercalate ['/'] (segs.map String.data)⟩

/-- JS truthiness: `undefined`, `null`, `false`, `0`, `NaN` and the empty
string are falsy, everything else is truthy. -/
def truthy : JSValue → Bool
  | .undefined => false
  | .null => false
  | .vbool b => b
  | .vnum n => n != 0
  | .vstr s => s != ""
  | .varr _ => true
  | .vobj _ => true

/-- Look up the first binding of `k` in an object's field list (JS objects
have at most one binding per key). -/
def getField : List (String × JSValue) → String → Option JSValue
  | [], _ => none
  | (k, v) :: rest, key => if k = key then some v else getField rest key

/-- `getField` with JS semantics for a missing property: `undefined`. -/
def getFieldD (fs : List (String × JSValue)) (key : String) : JSValue :=
  (getField fs key).getD .undefined

/-- Assign field `k := v`: replace the first existing binding, else append
(the JS property write on a plain object). -/
def setField : List (String × JSValue) → String → JSValue → List (String × JSValue)
  | [], key, v => [(key, v)]
  | (k, w) :: rest, key, v =>
      if k = key then (k, v) :: rest else (k, w) :: setField rest key v

/-- The field list of a plain object; any other value has none. -/
def fieldsOf : JSValue → List (String × JSValue)
  | .vobj fs => fs
  | _ => []

/-- DataStore.js `_isRefValue`: a string value starting with `REF_KEY`. -/
def isRefValue : JSValue → Bool
  | .vstr s => strStartsWith s "__ref:"
  | _ => false

/-- DataStore.js `_parseRefKey`: strip the `REF_KEY` marker. -/
def parseRefKey (s : String) : String :=
  strDrop s ("__ref:".length)

/-! ## HandlerContext (spec §4.2, README "HandlerContext")

Modelled from the spec: the HandlerContext construction used by the
handled-method pipeline.  Spec §4.2: "build a context record by copying
call arguments into fields named by the signature (a variadic-marked field
collects the remaining trailing arguments as an ordered sequence)" and,
after the handlers have run, "reconstruct arguments from the (possibly
mutated) context per the signature"; the README documents the resulting
`key`/`value`/`options` fields on the context handlers receive.  A
variadic mark is a `...` prefix on the signature name; a missing trailing
argument binds as `undefined`. -/

/-- Modelled from the spec: the constructor's binding loop over the
signature, from argument index `i`, accumulating the context fields: the
name at position `i` is bound to the `i`-th call argument, a
`...`-prefixed name to the ordered sequence of arguments from `i` on. -/
def ctxInitAux (args : List JSValue) : Nat → List String → List (String × JSValue) →
    List (String × JSValue)
  | _, [], fields => fields
  | i, prop :: rest, fields =>
      let fields' := if strStartsWith prop "..." then
          setField fields (strDrop prop 3) (.varr (args.drop i))
        else setField fields prop (args.getD i .undefined)
      ctxInitAux args (i + 1) rest fields'

/-- Modelled from the spec: build the context fields for a call — copy the
call arguments into fields named by the signature. -/
def ctxInit (signature : List String) (args : List JSValue) : List (String × JSValue) :=
  ctxInitAux args 0 signature []

/-- Modelled from the spec: `toArguments` — rebuild the argument list from
the (possibly handler-mutated) context fields according to the signature; a
`...`-marked field contributes its collected sequence in place. -/
def ctxToArguments (signature : List String) (fields : List (String × JSValue)) :
    List JSValue :=
  signature.foldr
    (fun prop acc =>
      if strStartsWith prop "..." then
        (match getFieldD fields (strDrop prop 3) with
          | .varr xs => xs
          | v => [v]) ++ acc
      else
        getFieldD fields prop :: acc)
    []

/-- JS numeric property name (array index): all-digit strings. -/
def digitsToNat (cs : List Char) : Option Nat :=
  if cs = [] then none
  else cs.foldl
    (fun acc c =>
      match acc with
      | none => none
      | some n => if '0' ≤ c ∧ c ≤ '9' then some (n * 10 + (c.toNat - '0'.toNat)) else none)
    (some 0)

/-- Array index denoted by a path segment, if any. -/
def strIndex (s : String) : Option Nat := digitsToNat s.data

/-- The string held by a string value (callers check `isRefValue` first). -/
def strVal : JSValue → String
  | .vstr s => s
  | _ => ""

/-- Read one path segment: field of a plain object, index of an array,
`undefined` otherwise. -/
def getProp : JSValue → String → Option JSValue
  | .vobj fs, s => getField fs s
  | .varr xs, s =>
      (match strIndex s with
        | some i => xs[i]?
        | none => none)
  | _, _ => none

/-- Path-accessor read: walk the segments, `undefined` once the path leaves
the tree. -/
def propGet : JSValue → List String → JSValue
  | v, [] => v
  | v, s :: rest =>
      (match getProp v s with
        | some w => propGet w rest
        | none => .undefined)

mutual

/-- Deep merge (the accessor's `merge` mode): plain objects merge fieldwise
and recursively, any other combination is replaced by the new value. -/
def deepMerge : JSValue → JSValue → JSValue
  | .vobj fa, .vobj fb => .vobj (mergeFields fa fb)
  | _, b => b

/-- Fold the new fields into the existing ones. -/
def mergeFields : List (String × JSValue) → List (String × JSValue) → List (String × JSValue)
  | fa, [] => fa
  | fa, (k, v) :: rest =>
      let v' := match getField fa k with
        | some old => deepMerge old v
        | none => v
      mergeFields (setField fa k v') rest

end

/-- Path-accessor write: replace or create intermediate plain objects along
the path; at the final segment store the value, deep-merged into an existing
value when `merge` is set. -/
def propSet : JSValue → List String → JSValue → Bool → JSValue
  | _, [], v, _ => v
  | tree, [s], v, merge =>
      let fs := fieldsOf tree
      let newV := if merge then
          (match getField fs s with
            | some old => deepMerge old v
            | none => v)
        else v
      .vobj (setField fs s newV)
  | tree, s :: rest, v, merge =>
      let fs := fieldsOf tree
      .vobj (setField fs s (propSet (getFieldD fs s) rest v merge))

/-! ## Reference resolution (DataStore.js `_resolveRefKey`, lines 305-334) -/

/-- The walk of `_resolveRefKey` (lines 317-326): follow the segments from
the root; stop at the first missing/nullish node (`none`) or at the first
stored ref value, returning its target and the index where it was found.
The `value[segs[idx]] == null` guard makes a `null`/`undefined` field end
the walk exactly like a missing one. -/
def findRef : JSValue → List String → Nat → Option (String × Nat)
  | _, [], _ => none
  | v, s :: rest, idx =>
      (match getProp v s with
        | none => none
        | some .null => none
        | some .undefined => none
        | some w =>
            if isRefValue w then some (parseRefKey (strVal w), idx)
            else findRef w rest (idx + 1))

/-- DataStore.js `_resolveRefKey`: a `__ref:`-encoded key resolves to its
target; otherwise strip a leading separator, walk to the nearest stored ref
and reattach the unconsumed trailing segments. -/
def resolveRefKey (data : JSValue) (key : String) : String :=
  if isRefValue (.vstr key) then parseRefKey key
  else
    let key := if strStartsWith key "/" then strDrop key 1 else key
    let segs := splitKey key
    match findRef data segs 0 with
    | none => key
    | some (ref, idx) =>
        if ref ≠ key ∧ idx < segs.length - 1 then
          ref ++ "/" ++ joinSlash (segs.drop (idx + 1))
        else ref

/-! ## Alias-freeness -/

mutual

/-- No alias marker anywhere inside the value. -/
def refFree : JSValue → Bool
  | .vstr s => !strStartsWith s "__ref:"
  | .vobj fs => refFreeFields fs
  | .varr xs => refFreeList xs
  | _ => true

/-- `refFree` over an object's fields. -/
def refFreeFields : List (String × JSValue) → Bool
  | [] => true
  | (_, v) :: rest => refFree v && refFreeFields rest

/-- `refFree` over an array's elements. -/
def refFreeList : List JSValue → Bool
  | [] => true
  | v :: rest => refFree v && refFreeList rest

end

theorem refFree_not_isRefValue {v : JSValue} (h : refFree v = true) :
    isRefValue v = false := by
  cases v <;> simp_all [refFree, isRefValue]

theorem getField_setField_self (fs : List (String × JSValue)) (k : String) (v : JSValue) :
    getField (setField fs k v) k = some v := by
  induction fs with
  | nil => simp [setField, getField]
  | cons hd tl ih =>
      obtain ⟨k0, v0⟩ := hd
      by_cases hk : k0 = k <;> simp [setField, getField, hk, ih]

theorem getField_setField_ne (fs : List (String × JSValue)) {k k' : String} (v : JSValue)
    (h : k' ≠ k) : getField (setField fs k v) k' = getField fs k' := by
  induction fs with
  | nil =>
      simp only [setField, getField]
      exact if_neg (fun hh => h hh.symm)
  | cons hd tl ih =>
      obtain ⟨k0, v0⟩ := hd
      by_cases hk : k0 = k
      · subst hk
        have h0 : k0 ≠ k' := fun hh => h hh.symm
        simp [setField, getField, h0]
      · by_cases hk2 : k0 = k' <;> simp [setField, getField, hk, hk2, ih, h]

theorem refFreeFields_getField {fs : List (String × JSValue)} {s : String} {w : JSValue}
    (hf : refFreeFields fs = true) (hg : getField fs s = some w) : refFree w = true := by
  induction fs with
  | nil => simp [getField] at hg
  | cons hd tl ih =>
      obtain ⟨k0, v0⟩ := hd
      simp only [refFreeFields, Bool.and_eq_true] at hf
      by_cases hk : k0 = s
      · simp [getField, hk] at hg
        exact hg ▸ hf.1
      · simp [getField, hk] at hg
        exact ih hf.2 hg

theorem refFreeList_get {xs : List JSValue} {i : Nat} {w : JSValue}
    (hf : refFreeList xs = true) (hg : xs[i]? = some w) : refFree w = true := by
  induction xs generalizing i with
  | nil => simp at hg
  | cons hd tl ih =>
      simp only [refFreeList, Bool.and_eq_true] at hf
      cases i with
      | zero => simp at hg; exact hg ▸ hf.1
      | succ n => simp at hg; exact ih hf.2 hg

theorem refFree_getProp {v w : JSValue} {s : String}
    (hf : refFree v = true) (hg : getProp v s = some w) : refFree w = true := by
  cases v with
  | vobj fs => exact refFreeFields_getField (by simpa [refFree] using hf) hg
  | varr xs =>
      simp only [getProp] at hg
      cases hs : strIndex s with
      | none => simp [hs] at hg
      | some i =>
          simp [hs] at hg
          exact refFreeList_get (by simpa [refFree] using hf) hg
  | _ => simp [getProp] at hg

theorem findRef_refFree {v : JSValue} (hf : refFree v = true) :
    ∀ (segs : List String) (i : Nat), findRef v segs i = none := by
  intro segs
  induction segs generalizing v with
  | nil => intro i; simp [findRef]
  | cons s rest ih =>
      intro i
      rw [findRef]
      cases hg : getProp v s with
      | none => rfl
      | some w =>
          have hw : refFree w = true := refFree_getProp hf hg
          have hnr : isRefValue w = false := refFree_not_isRefValue hw
          cases w <;> simp_all [ih hw]

/-- On an alias-free tree, resolution is the identity up to the leading
separator (for keys that are not themselves alias-encoded). -/
theorem resolveRefKey_refFree {data : JSValue} (hf : refFree data = true)
    {key : String} (hk : isRefValue (.vstr key) = false) :
    resolveRefKey data key
      = (if strStartsWith key "/" then strDrop key 1 else key) := by
  rw [resolveRefKey]
  simp only [hk, Bool.false_eq_true, if_false]
  rw [findRef_refFree hf]

/-! ## Handler registry (DataStore.js `use` / `unuse` / `_isMatchKey`) -/

/-- A registered handler function.  `fnId` stands for the function's JS
identity (two registrations of the same function share an id, distinct
functions have distinct ids; `===` on functions is identity comparison);
`run` is the function's effect on the shared mutable context's fields. -/
structure Handler where
  fnId : Nat
  run : List (String × JSValue) → List (String × JSValue)

/-- A stored matcher: `undefined`/empty (match all), a string prefix, or a
RegExp (embedded as its test predicate on the key). -/
inductive Matcher where
  | undefined : Matcher
  | str : String → Matcher
  | regex : (String → Bool) → Matcher

/-- A registry entry `(match, handler)` (DataStore.js:80). -/
structure HandlerEntry where
  hmatch : Matcher
  handler : Handler

/-- DataStore.js `_isMatchKey` (lines 272-278): no matcher matches
everything, a RegExp tests the key, a string must be a prefix of the key
(`key.indexOf(match) == 0`); the falsy empty-string matcher also matches
everything, which coincides with the empty prefix. -/
def isMatchKey (key : String) (m : Matcher) : Bool :=
  match m with
  | .undefined => true
  | .regex t => t key
  | .str s => strStartsWith key s

/-- The `match` argument of `use`/`unuse`: either a matcher or a function
passed in the match position (single-argument registration form). -/
inductive MatchParam where
  | m : Matcher → MatchParam
  | fn : Handler → MatchParam

/-- `unuse` line 99: if the match argument is a function it is the handler. -/
def effectiveHandler (p : MatchParam) (handler : Option Handler) : Option Handler :=
  match p with
  | .fn f => some f
  | .m _ => handler

/-- JS `===` between a stored handler function and the (possibly missing)
argument. -/
def handlerEq (e : Handler) (h : Option Handler) : Bool :=
  match h with
  | some g => e.fnId == g.fnId
  | none => false

/-- The backwards splice loop of `unuse` (DataStore.js:101-105): `j` counts
down from the list length; at each step the entry at index `j - 1` is
removed when its handler is the one being unregistered. -/
def unuseAux (h : Option Handler) : List HandlerEntry → Nat → List HandlerEntry
  | hs, 0 => hs
  | hs, j + 1 =>
      let hs' := match hs[j]? with
        | some e => if handlerEq e.handler h then hs.eraseIdx j else hs
        | none => hs
      unuseAux h hs' j

/-- DataStore.js `unuse` for one `(match, handler)` pair (the non-batch
form; the batch form folds this over the pairs). -/
def unuseSingle (hs : List HandlerEntry) (p : MatchParam) (handler : Option Handler) :
    List HandlerEntry :=
  unuseAux (effectiveHandler p handler) hs hs.length

theorem unuseAux_eq (h : Option Handler) :
    ∀ (j : Nat) (hs : List HandlerEntry), j ≤ hs.length →
      unuseAux h hs j
        = (hs.take j).filter (fun e => !handlerEq e.handler h) ++ hs.drop j := by
  intro j
  induction j with
  | zero => intro hs _; simp [unuseAux]
  | succ j ih =>
      intro hs hj
      have hjl : j < hs.length := Nat.lt_of_succ_le hj
      rw [unuseAux]
      have hget : hs[j]? = some hs[j] := List.getElem?_eq_getElem hjl
      rw [hget]
      have htake : hs.take (j + 1)
          = hs.take j ++ [hs[j]] := by
        rw [List.take_succ, hget]
        rfl
      have hdrop : hs.drop j = hs[j] :: hs.drop (j + 1) :=
        List.drop_eq_getElem_cons hjl
      by_cases hcase : handlerEq (hs[j]).handler h
      · simp only [hcase, if_true]
        have hlen : j ≤ (hs.eraseIdx j).length := by
          rw [List.length_eraseIdx_of_lt hjl]
          omega
        rw [ih _ hlen]
        have herase : hs.eraseIdx j = hs.take j ++ hs.drop (j + 1) :=
          List.eraseIdx_eq_take_drop_succ hs j
        have htj : (hs.eraseIdx j).take j = hs.take j := by
          rw [herase, List.take_append_of_le_length]
          · exact List.take_take j j hs ▸ by simp [Nat.min_self]
          · rw [List.length_take]; omega
        have hdj : (hs.eraseIdx j).drop j = hs.drop (j + 1) := by
          rw [herase, List.drop_append_of_le_length]
          · rw [List.drop_take]
            simp
          · rw [List.length_take]; omega
        rw [htj, hdj, htake, List.filter_append]
        simp [List.filter, hcase]
      · simp only [hcase, if_false, Bool.false_eq_true]
        rw [ih _ (Nat.le_of_lt hjl)]
        rw [htake, List.filter_append, hdrop]
        simp [List.filter, hcase]

/-- C8.  `unuse` removes exactly the registered entries whose handler
function is (JS-identical to) the handler being unregistered — also when
the handler was passed in the match position — independently of the
matcher each entry was registered with, and keeps every other entry in
registration order; the backwards index scan makes the in-place splices
safe, so the loop is extensionally a filter. -/
theorem unuse_removes_exactly_matching_handlers
    (hs : List HandlerEntry) (p : MatchParam) (handler : Option Handler) :
    unuseSingle hs p handler
      = hs.filter (fun e => !handlerEq e.handler (effectiveHandler p handler)) := by
  rw [unuseSingle, unuseAux_eq _ hs.length hs (Nat.le_refl _)]
  simp

/-! ## object-assign -/

/-- `object-assign`: copy each source field onto the target in order (a
later write to the same key overwriting an earlier one). -/
def objAssign (target src : List (String × JSValue)) : List (String × JSValue) :=
  src.foldl (fun acc kv => setField acc kv.1 kv.2) target

/-- `a` if present, else `b` (strict `orElse` on options). -/
def orElseO (a b : Option JSValue) : Option JSValue :=
  match a with
  | some v => some v
  | none => b

theorem getField_eq_none_of_not_mem {fs : List (String × JSValue)} {k : String}
    (h : k ∉ fs.map Prod.fst) : getField fs k = none := by
  induction fs with
  | nil => rfl
  | cons hd tl ih =>
      obtain ⟨k0, v0⟩ := hd
      simp only [List.map_cons, List.mem_cons] at h
      push_neg at h
      have h1 : ¬ (k0 = k) := fun hh => h.1 hh.symm
      simp [getField, h1, ih h.2]

theorem getField_objAssign (src : List (String × JSValue)) :
    ∀ (target : List (String × JSValue)) (k : String), (src.map Prod.fst).Nodup →
      getField (objAssign target src) k = orElseO (getField src k) (getField target k) := by
  induction src with
  | nil => intro t k _; simp [objAssign, getField, orElseO]
  | cons hd tl ih =>
      intro t k hnd
      obtain ⟨k0, v0⟩ := hd
      simp only [List.map_cons, List.nodup_cons] at hnd
      have step : objAssign t ((k0, v0) :: tl) = objAssign (setField t k0 v0) tl := rfl
      rw [step, ih _ k hnd.2]
      by_cases hk : k0 = k
      · subst hk
        rw [getField_eq_none_of_not_mem hnd.1, getField_setField_self]
        simp [getField, orElseO]
      · rw [getField_setField_ne _ _ (fun hh => hk hh.symm)]
        simp [getField, hk]

/-- HandlerContext.js `mergeOptions` (lines 68-70):
`this.options = assign({}, options, this.options)`.  `assign` copies the own
fields of each source left to right onto a fresh object, a later source
winning; a non-object source (for instance a still-unset `options` field)
contributes nothing. -/
def mergeOptions (options ctxOptions : JSValue) : JSValue :=
  .vobj (objAssign (objAssign [] (fieldsOf options)) (fieldsOf ctxOptions))

/-- C10.  `mergeOptions` keeps every field the context's options already
have (the existing call options win on shared names) and takes a field
from the passed options object only where the context options have no
binding for that name.  (JS objects have no duplicate keys, whence the
`Nodup` hypotheses on the two field lists.) -/
theorem mergeOptions_existing_options_win
    (co po : List (String × JSValue)) (k : String)
    (hco : (co.map Prod.fst).Nodup) (hpo : (po.map Prod.fst).Nodup) :
    getField (fieldsOf (mergeOptions (.vobj po) (.vobj co))) k
      = orElseO (getField co k) (getField po k) := by
  rw [mergeOptions]
  show getField (objAssign (objAssign [] po) co) k = _
  rw [getField_objAssign co _ k hco, getField_objAssign po [] k hpo]
  cases getField co k <;> cases getField po k <;> simp [getField, orElseO]

/-- Witness for C10 at concrete options: the context already holds
`merge := false`; merging `(merge := true, immutable := true)` keeps
`merge := false` and adds `immutable := true`. -/
theorem mergeOptions_existing_options_win_witness :
    ([("merge", JSValue.vbool false)].map Prod.fst).Nodup
      ∧ ([("merge", JSValue.vbool true), ("immutable", JSValue.vbool true)].map Prod.fst).Nodup
      ∧ getField (fieldsOf (mergeOptions
            (.vobj [("merge", JSValue.vbool true), ("immutable", JSValue.vbool true)])
            (.vobj [("merge", JSValue.vbool false)]))) "merge"
          = orElseO (getField [("merge", JSValue.vbool false)] "merge")
              (getField [("merge", JSValue.vbool true), ("immutable", JSValue.vbool true)] "merge") := by
  refine ⟨by decide, by decide, ?_⟩
  exact mergeOptions_existing_options_win
    [("merge", JSValue.vbool false)]
    [("merge", JSValue.vbool true), ("immutable", JSValue.vbool true)]
    "merge" (by decide) (by decide)

/-! ## The DataStore `set` pipeline
(DataStore.js `set` / `_routeHandledMethod`, methods/set.js) -/

/-- The runtime flag (@yr/runtime `isBrowser`): the embedding fixes the
server default.  It only selects the default for `doSet`'s copy-on-write
branch, whose stored result is the same tree either way. -/
def isBrowserRuntime : Bool := false

/-- The DataStore state the `set` pipeline touches: the data tree,
writability, and the handler registry. -/
structure Store where
  data : JSValue
  isWritable : Bool
  handlers : List HandlerEntry

/-- methods/set.js `DEFAULT_OPTIONS`. -/
def defaultSetOptions : List (String × JSValue) :=
  [("immutable", .vbool isBrowserRuntime), ("merge", .vbool true)]

/-- methods/set.js `doSet` (lines 58-75): resolve the key through the
nearest stored ref, then write through the path accessor.  Both the
`immutable` branch (which keeps the previous tree object only when the
accessor reports no change) and the in-place branch leave the tree equal
to the accessor's result, so the two branches are embedded as one
update. -/
def doSet (s : Store) (key : String) (value : JSValue) (o : JSValue) : Store :=
  let key := resolveRefKey s.data key
  { s with data := propSet s.data (splitKey key) value (truthy (getFieldD (fieldsOf o) "merge")) }

/-- methods/set.js `set` (lines 25-47): do nothing on a falsy key; merge
the caller's options over the defaults; a string key writes once, a plain
object batches its fields, an array batches `[key, value, options]` tuples
(each tuple's options merged with the defaults afresh). -/
def setMethod (s : Store) (key value options : JSValue) : Store :=
  if truthy key = false then s
  else
    let o : JSValue := .vobj (objAssign (objAssign [] defaultSetOptions) (fieldsOf options))
    match key with
    | .vstr k => doSet s k value o
    | .vobj fs => fs.foldl (fun st kv => doSet st kv.1 kv.2 o) s
    | .varr xs =>
        xs.foldl (fun st e =>
          match e with
          | .varr tup =>
              doSet st (strVal (tup.getD 0 .undefined)) (tup.getD 1 .undefined)
                (.vobj (objAssign (objAssign [] defaultSetOptions)
                  (fieldsOf (tup.getD 2 .undefined))))
          | _ => st) s
    | _ => s

/-- The routing key: a truthy key loses its leading separator
(spec §4.2, "leading separator stripped"). -/
def stripKey (key : String) : String :=
  if key ≠ "" ∧ strStartsWith key "/" then strDrop key 1 else key

/-- Modelled from the spec: `_routeHandledMethod` (spec §4.2) instantiated
at the handled method `set` (implementation methods/set.js, signature
`['key', 'value', 'options']`).  With no registered handlers call the
implementation directly on the call arguments, the truthy key's leading
separator stripped (the fast path); otherwise build the context by copying
the call arguments into fields named by the signature, determine the
matching key from the key argument with its leading separator stripped,
run every handler whose matcher accepts it synchronously in registration
order on the shared context, and invoke the implementation on the
arguments reconstructed from the (possibly mutated) context per the
signature. -/
def routeSet (s : Store) (key : String) (value options : JSValue) : Store :=
  let key' := stripKey key
  if s.handlers.isEmpty then setMethod s (.vstr key') value options
  else
    let ctx0 := ctxInit ["key", "value", "options"] [.vstr key, value, options]
    let ctx := s.handlers.foldl
      (fun c e => if isMatchKey key' e.hmatch then e.handler.run c else c) ctx0
    let args := ctxToArguments ["key", "value", "options"] ctx
    setMethod s (args.getD 0 .undefined) (args.getD 1 .undefined) (args.getD 2 .undefined)

/-- DataStore.js `set` (lines 131-144): silently do nothing on a
non-writable store or a falsy key; a string key routes once through the
pipeline; a plain object routes each of its fields; an array routes each
`[key, value, options]` tuple (the `...key[i]` spread). -/
def dsSet (s : Store) (key value options : JSValue) : Store :=
  if s.isWritable = false ∨ truthy key = false then s
  else match key with
    | .vstr k => routeSet s k value options
    | .vobj fs => fs.foldl (fun st kv => routeSet st kv.1 kv.2 options) s
    | .varr xs =>
        xs.foldl (fun st e =>
          match e with
          | .varr tup =>
              routeSet st (strVal (tup.getD 0 .undefined)) (tup.getD 1 .undefined) (tup.getD 2 .undefined)
          | _ => st) s
    | _ => s

/-! ## Reading (`get`)

`methods/get.js` is not under src — DataStore.js:117 calls it and the
README documents it — so the read path is modelled from the spec (§4.1):
empty key returns the whole tree; otherwise resolve the key through
`_resolveRefKey`, read the node through the path accessor, and recursively
substitute every nested alias value by its dereferenced target value.
Spec §9 records that this dereference recursion is *not* bounded in the
source (it relies on an incidental stack/loop limit rather than an
explicit hop count), so the substitution is embedded with a fuel argument
consumed at every recursion step; `none` marks the case where no amount of
fuel completes the walk, i.e. the unbounded recursion never bottoms out. -/

mutual

/-- Modelled from the spec: the nested-alias substitution of the missing
`methods/get.js`.  An alias string is replaced by the (recursively
substituted) value read at its resolved target key; mappings and sequences
are walked elementwise; other values are returned as they are. -/
def derefValue (data : JSValue) : Nat → JSValue → Option JSValue
  | 0, _ => none
  | fuel + 1, v =>
      match v with
      | .vstr s =>
          if strStartsWith s "__ref:" then
            derefValue data fuel (propGet data (splitKey (resolveRefKey data (parseRefKey s))))
          else some (.vstr s)
      | .vobj fs => (derefFields data fuel fs).map .vobj
      | .varr xs => (derefList data fuel xs).map .varr
      | w => some w

/-- `derefValue` over an object's fields. -/
def derefFields (data : JSValue) : Nat → List (String × JSValue) → Option (List (String × JSValue))
  | 0, _ => none
  | fuel + 1, fs =>
      match fs with
      | [] => some []
      | (k, v) :: rest =>
          match derefValue data fuel v, derefFields data fuel rest with
          | some w, some ws => some ((k, w) :: ws)
          | _, _ => none

/-- `derefValue` over an array's elements. -/
def derefList (data : JSValue) : Nat → List JSValue → Option (List JSValue)
  | 0, _ => none
  | fuel + 1, xs =>
      match xs with
      | [] => some []
      | v :: rest =>
          match derefValue data fuel v, derefList data fuel rest with
          | some w, some ws => some (w :: ws)
          | _, _ => none

end

/-- Modelled from the spec: `methods/get.js` (spec §4.1, README `get`).
Empty key returns all data; otherwise resolve the key and read the node,
substituting nested aliases. -/
def dsGet (s : Store) (fuel : Nat) (key : String) : Option JSValue :=
  if key = "" then some s.data
  else derefValue s.data fuel (propGet s.data (splitKey (resolveRefKey s.data key)))

mutual

/-- Fuel sufficient for `derefValue` to finish walking an alias-free value. -/
def fuelNeed : JSValue → Nat
  | .vobj fs => 1 + fuelNeedFields fs
  | .varr xs => 1 + fuelNeedList xs
  | _ => 1

/-- `fuelNeed` over fields. -/
def fuelNeedFields : List (String × JSValue) → Nat
  | [] => 1
  | (_, v) :: rest => 1 + fuelNeed v + fuelNeedFields rest

/-- `fuelNeed` over elements. -/
def fuelNeedList : List JSValue → Nat
  | [] => 1
  | v :: rest => 1 + fuelNeed v + fuelNeedList rest

end

theorem refFreeFields_setField {fs : List (String × JSValue)} {k : String} {x : JSValue}
    (hf : refFreeFields fs = true) (hx : refFree x = true) :
    refFreeFields (setField fs k x) = true := by
  induction fs with
  | nil => simp [setField, refFreeFields, hx]
  | cons hd tl ih =>
      obtain ⟨k0, v0⟩ := hd
      simp only [refFreeFields, Bool.and_eq_true] at hf
      by_cases hk : k0 = k <;>
        simp [setField, hk, refFreeFields, hx, hf.1, hf.2, ih hf.2]

theorem refFree_fieldsOf {t : JSValue} (h : refFree t = true) :
    refFreeFields (fieldsOf t) = true := by
  cases t <;> simp_all [refFree, fieldsOf, refFreeFields]

theorem refFree_deepMerge :
    ∀ a b : JSValue, refFree a = true → refFree b = true →
      refFree (deepMerge a b) = true := by
  have h := deepMerge.induct
    (fun a b => refFree a = true → refFree b = true → refFree (deepMerge a b) = true)
    (fun fa fb => refFreeFields fa = true → refFreeFields fb = true →
      refFreeFields (mergeFields fa fb) = true)
  apply h
  · intro fa fb ih ha hb
    simp only [deepMerge, refFree]
    exact ih (by simpa [refFree] using ha) (by simpa [refFree] using hb)
  · intro a b hx ha hb
    cases a <;> cases b <;>
      first
        | exact (hx _ _ rfl rfl).elim
        | simpa [deepMerge] using hb
  · intro fa ha _
    have h0 : mergeFields fa [] = fa := by rw [mergeFields]
    rw [h0]; exact ha
  · intro fa k v rest v' ih1 ih2 ha hb
    simp only [refFreeFields, Bool.and_eq_true] at hb
    have hv' : refFree v' = true := by
      have hdef : v' = (match getField fa k with
          | some old => deepMerge old v
          | none => v) := rfl
      rw [hdef]
      cases hg : getField fa k with
      | some old => exact ih1 old (refFreeFields_getField ha hg) hb.1
      | none => exact hb.1
    have h1 : mergeFields fa ((k, v) :: rest) = mergeFields (setField fa k v') rest := by
      rw [mergeFields]
    rw [h1]
    exact ih2 (refFreeFields_setField ha hv') hb.2

theorem refFree_getFieldD {t : JSValue} {s : String} (h : refFree t = true) :
    refFree (getFieldD (fieldsOf t) s) = true := by
  cases hg : getField (fieldsOf t) s with
  | some w =>
      rw [getFieldD, hg]
      exact refFreeFields_getField (refFree_fieldsOf h) hg
  | none => rw [getFieldD, hg]; rfl

theorem refFree_propSet :
    ∀ (segs : List String) (t v : JSValue) (m : Bool),
      refFree t = true → refFree v = true → refFree (propSet t segs v m) = true := by
  intro segs
  induction segs with
  | nil => intro t v m _ hv; simpa [propSet] using hv
  | cons s rest ih =>
      cases rest with
      | nil =>
          intro t v m ht hv
          have hnew : refFree (if m then
              (match getField (fieldsOf t) s with
                | some old => deepMerge old v
                | none => v)
            else v) = true := by
            cases m with
            | false => simpa using hv
            | true =>
                cases hg : getField (fieldsOf t) s with
                | some old =>
                    simpa using refFree_deepMerge old v
                      (refFreeFields_getField (refFree_fieldsOf ht) hg) hv
                | none => simpa using hv
          simp only [propSet, refFree]
          exact refFreeFields_setField (refFree_fieldsOf ht) hnew
      | cons r rs =>
          intro t v m ht hv
          simp only [propSet, refFree]
          exact refFreeFields_setField (refFree_fieldsOf ht)
            (ih _ _ _ (refFree_getFieldD ht) hv)

theorem refFree_propGet :
    ∀ (segs : List String) (t : JSValue), refFree t = true →
      refFree (propGet t segs) = true := by
  intro segs
  induction segs with
  | nil => intro t ht; simpa [propGet] using ht
  | cons s rest ih =>
      intro t ht
      rw [propGet]
      cases hg : getProp t s with
      | some w => exact ih w (refFree_getProp ht hg)
      | none => rfl

mutual

/-- DataStore.js `explode`: expand every nested ref through `store.get`. -/
def explodeVal (s : Store) : Nat → JSValue → Option JSValue
  | 0, _ => none
  | fuel + 1, v =>
      match v with
      | .vobj fs => (explodeFields s fuel fs).map .vobj
      | .varr xs => (explodeList s fuel xs).map .varr
      | w =>
          if isRefValue w then
            match dsGet s fuel (parseRefKey (strVal w)) with
            | some got => explodeVal s fuel got
            | none => none
          else some w

/-- `explode` over an object's fields. -/
def explodeFields (s : Store) : Nat → List (String × JSValue) → Option (List (String × JSValue))
  | 0, _ => none
  | fuel + 1, fs =>
      match fs with
      | [] => some []
      | (k, v) :: rest =>
          match explodeVal s fuel v, explodeFields s fuel rest with
          | some w, some ws => some ((k, w) :: ws)
          | _, _ => none

/-- `explode` over an array's elements. -/
def explodeList (s : Store) : Nat → List JSValue → Option (List JSValue)
  | 0, _ => none
  | fuel + 1, xs =>
      match xs with
      | [] => some []
      | v :: rest =>
          match explodeVal s fuel v, explodeList s fuel rest with
          | some w, some ws => some (w :: ws)
          | _, _ => none

end

/-- A two-alias cycle: key `a` holds a ref to `b` and `b` holds a ref to
`a` (the configuration §4.1's hop bound is supposed to detect). -/
def cycData : JSValue := .vobj [("a", .vstr "__ref:b"), ("b", .vstr "__ref:a")]

/-- The store holding `cycData`. -/
def cycStore : Store := ⟨cycData, true, []⟩

/-- A two-link alias chain ending in a plain value. -/
def chainData : JSValue :=
  .vobj [("a", .vstr "__ref:b"), ("b", .vstr "__ref:c"), ("c", .vnum 1)]

theorem derefValue_cyc_none :
    ∀ n, derefValue cycData n (.vstr "__ref:a") = none
      ∧ derefValue cycData n (.vstr "__ref:b") = none := by
  intro n
  induction n with
  | zero => exact ⟨rfl, rfl⟩
  | succ n ih =>
      refine ⟨?_, ?_⟩
      · calc derefValue cycData (n + 1) (.vstr "__ref:a")
            = derefValue cycData n (.vstr "__ref:a") := rfl
          _ = none := ih.1
      · calc derefValue cycData (n + 1) (.vstr "__ref:b")
            = derefValue cycData n (.vstr "__ref:b") := rfl
          _ = none := ih.2

theorem dsGet_cyc_none (n : Nat) :
    dsGet cycStore n "a" = none ∧ dsGet cycStore n "b" = none := by
  constructor
  · show derefValue cycData n (.vstr "__ref:a") = none
    exact (derefValue_cyc_none n).1
  · show derefValue cycData n (.vstr "__ref:b") = none
    exact (derefValue_cyc_none n).2

theorem explodeVal_cyc_ref_none :
    ∀ n, explodeVal cycStore n (.vstr "__ref:a") = none
      ∧ explodeVal cycStore n (.vstr "__ref:b") = none := by
  intro n
  cases n with
  | zero => exact ⟨rfl, rfl⟩
  | succ m =>
      constructor
      · calc explodeVal cycStore (m + 1) (.vstr "__ref:a")
            = (match dsGet cycStore m "a" with
                | some got => explodeVal cycStore m got
                | none => none) := rfl
          _ = none := by rw [(dsGet_cyc_none m).1]
      · calc explodeVal cycStore (m + 1) (.vstr "__ref:b")
            = (match dsGet cycStore m "b" with
                | some got => explodeVal cycStore m got
                | none => none) := rfl
          _ = none := by rw [(dsGet_cyc_none m).2]

theorem explodeVal_cyc_dump_none :
    ∀ n, explodeVal cycStore n cycData = none := by
  intro n
  cases n with
  | zero => rfl
  | succ m =>
      cases m with
      | zero => rfl
      | succ p =>
          calc explodeVal cycStore (p + 1 + 1) cycData
              = (explodeFields cycStore (p + 1)
                  [("a", .vstr "__ref:b"), ("b", .vstr "__ref:a")]).map .vobj := rfl
            _ = (match explodeVal cycStore p (.vstr "__ref:b"),
                    explodeFields cycStore p [("b", .vstr "__ref:a")] with
                  | some w, some ws => some (("a", w) :: ws)
                  | _, _ => none).map JSValue.vobj := rfl
            _ = none := by
                rw [(explodeVal_cyc_ref_none p).2]
                cases explodeFields cycStore p [("b", .vstr "__ref:a")] <;> rfl

/-- C3, counterexample.  The claim says dump-time alias expansion
terminates on every input tree, reporting a bounded reference-cycle error
on cyclic alias configurations.  On the two-alias cycle, `explode` of the
value stored at `a` completes under no recursion budget whatsoever — the
recursion never bottoms out (the unbounded original recurses forever), and
no cycle error exists anywhere in DataStore.js. -/
theorem explode_cyclic_alias_never_completes :
    ¬ ∃ (n : Nat) (w : JSValue), explodeVal cycStore n (.vstr "__ref:a") = some w := by
  rintro ⟨n, w, h⟩
  rw [(explodeVal_cyc_ref_none n).1] at h
  cases h

/-- C3 (amended).  `_resolveRefKey` always terminates because it performs
one bounded walk that stops at the first stored alias — it neither
iterates alias chains to a fixed point (on the chain `a → b → c` it
returns `b`, not `c`) nor counts hops: on the cyclic configuration it
still returns the one-hop target without any reference-cycle error.  The
dump-time alias expansion, by contrast, has no bound at all: on the cyclic
configuration `explode` of the whole tree completes under no recursion
budget (the source would recurse until the runtime's stack limit; no
reference-cycle error is reported). -/
theorem resolveRefKey_single_hop_and_explode_unbounded :
    resolveRefKey chainData "a" = "b"
      ∧ resolveRefKey cycData "a" = "b"
      ∧ resolveRefKey cycData "b" = "a"
      ∧ ∀ n, explodeVal cycStore n cycData = none := by
  exact ⟨by decide, by decide, by decide, explodeVal_cyc_dump_none⟩

/-! ## The fetch engine (methods/fetch.js, the first file of part_002)

The HTTP collaborator `agent.get(url, options).timeout(ms).retry(n)` is
embedded as a function from the URL to the settled outcome of the
retried/timed-out request (spec §2, §6: an external capability).  Time is
a `now` parameter standing for `Date.now()`; header timestamps are kept
numeric (the source's `toUTCString`/`new Date` formatting is a bijective
presentation the claims do not inspect).  Every embedded fetch result also
carries the list of URLs handed to the collaborator, so "zero transport
calls" is the empty list. -/

/-- The settled failure of a load: the error the agent rejects with. -/
structure AgentErr where
  status : Int
deriving DecidableEq

/-- The settled success of a load. -/
structure AgentRes where
  body : JSValue
  headers : JSValue
  status : Int
  duration : Int
deriving DecidableEq

/-- The response objects `doFetch` resolves with (body / duration /
headers / key, plus the error attached to a stale-after-failure
response). -/
structure FetchResp where
  body : JSValue
  duration : Int
  headers : JSValue
  key : String
  error : Option AgentErr
deriving DecidableEq

/-- methods/fetch.js `DEFAULT_LOAD_OPTIONS`. -/
def defaultLoadOptions : List (String × JSValue) :=
  [("minExpiry", .vnum 60000), ("retry", .vnum 2), ("timeout", .vnum 5000)]

/-- The number held by a numeric option field (`0` otherwise). -/
def numOf : JSValue → Int
  | .vnum n => n
  | _ => 0

/-- JS `k in obj`: the property exists (even with an undefined value). -/
def hasField (v : JSValue) (k : String) : Bool :=
  match v with
  | .vobj fs => (getField fs k).isSome
  | _ => false

/-- A `(status: n)` headers object. -/
def statusHeaders (n : Int) : JSValue := .vobj [("status", .vnum n)]

/-- methods/fetch.js `hasExpired` (lines 229-231):
`obj && isPlainObject(obj) && expiresKey in obj && Date.now() > obj[key]`.
A non-numeric stored expiry compares NaN-false. -/
def hasExpired (now : Int) (v : JSValue) : Bool :=
  match v with
  | .vobj fs =>
      (match getField fs "__expires" with
        | some (.vnum e) => decide (now > e)
        | some _ => false
        | none => false)
  | _ => false

/-- methods/fetch.js `getExpiry` (lines 212-221).  `grace` is `store.GRACE`,
which the compiled FetchableDataStore never defines: at run time
`Number(new Date(dateString)) + undefined` is NaN, every comparison with
it is false, and the `now + minimum` branch is always taken; `some g`
keeps the source's intended arithmetic, `none` its actual runtime. -/
def getExpiry (now expiresHeader minimum : Int) (grace : Option Int) : Int :=
  match grace with
  | some g => if expiresHeader + g > now then expiresHeader + g else now + minimum
  | none => now + minimum

/-- `store.GRACE` on the compiled FetchableDataStore: never assigned. -/
def storeGrace : Option Int := none

/-- The `TypeError` a failed strict-mode property write throws
(methods/fetch.js is a strict-mode module); it reaches `doFetch` with no
HTTP status (`err.status` is `undefined`, embedded as 0). -/
def strictTypeError : AgentErr := ⟨0⟩

/-- methods/fetch.js `load` (lines 165-203): hand the URL to the agent; on
a response with a truthy body, stamp the expiry sidecar onto the body when
an `expires` header came back, and persist the body through `store.set`
(the pipeline, "enable handling by not calling inner set()"); an empty
body stores nothing.  The module is strict-mode, so stamping a truthy
*primitive* body throws a `TypeError` before the set; the chained `catch`
then treats it like any load failure.  (An array body accepts the stamp as
a non-index property, which the embedding's sequences cannot carry; it is
persisted unstamped.)  On failure with no `staleIfError`, clear the key by
setting `undefined`; the error is re-thrown either way.  (`options.id =
key` only tags the request for abort and has no effect here.) -/
def loadF (now : Int) (agent : String → Except AgentErr AgentRes)
    (s : Store) (key url : String) (o : JSValue) :
    Store × Except AgentErr AgentRes × List String :=
  match agent url with
  | .ok res =>
      if truthy res.body then
        if truthy res.headers && hasField res.headers "expires" then
          match res.body with
          | .vobj fs =>
              (dsSet s (.vstr key)
                (.vobj (setField fs "__expires"
                  (.vnum (getExpiry now (numOf (getFieldD (fieldsOf res.headers) "expires"))
                    (numOf (getFieldD (fieldsOf o) "minExpiry")) storeGrace)))) o,
                .ok res, [url])
          | .varr xs => (dsSet s (.vstr key) (.varr xs) o, .ok res, [url])
          | _ =>
              if truthy (getFieldD (fieldsOf o) "staleIfError") then
                (s, .error strictTypeError, [url])
              else (dsSet s (.vstr key) .undefined o, .error strictTypeError, [url])
        else (dsSet s (.vstr key) res.body o, .ok res, [url])
      else (s, .ok res, [url])
  | .error e =>
      if truthy (getFieldD (fieldsOf o) "staleIfError") then (s, .error e, [url])
      else (dsSet s (.vstr key) .undefined o, .error e, [url])

/-- methods/fetch.js `doFetch` (lines 91-149): read the current value; if
missing or expired, either resolve with a 500-status placeholder (no URL)
or run `load`; a load failure rejects unless `staleIfError` converts it to
a resolved stale response carrying the error; when a truthy stale value
exists and `staleWhileRevalidate` is set, the caller gets the stale value
immediately with a 200 status while the load proceeds for its side
effects only (its settlement is swallowed).  Otherwise resolve with the
current value and a 200 status and do not touch the agent.  `none`
propagates a `get` whose alias walk never completes. -/
def doFetchF (now : Int) (fuel : Nat) (agent : String → Except AgentErr AgentRes)
    (s : Store) (key url : String) (o : JSValue) :
    Option (Store × Except AgentErr FetchResp × List String) :=
  match dsGet s fuel key with
  | none => none
  | some value =>
      if !truthy value || hasExpired now value then
        if url = "" then
          some (s, .ok ⟨value, 0, statusHeaders 500, key, none⟩, [])
        else
          match loadF now agent s key url o with
          | (s1, .ok res, calls) =>
              (match dsGet s1 fuel key with
                | none => none
                | some body =>
                    if truthy value && truthy (getFieldD (fieldsOf o) "staleWhileRevalidate") then
                      some (s1, .ok ⟨value, 0, statusHeaders 200, key, none⟩, calls)
                    else
                      some (s1, .ok ⟨body, res.duration, res.headers, key, none⟩, calls))
          | (s1, .error e, calls) =>
              if truthy value && truthy (getFieldD (fieldsOf o) "staleWhileRevalidate") then
                some (s1, .ok ⟨value, 0, statusHeaders 200, key, none⟩, calls)
              else if truthy (getFieldD (fieldsOf o) "staleIfError") then
                some (s1, .ok ⟨value, 0,
                  .vobj [("expires", .vnum (now + numOf (getFieldD (fieldsOf o) "minExpiry"))),
                    ("status", .vnum e.status)], key, some e⟩, calls)
              else
                some (s1, .error e, calls)
      else
        some (s, .ok ⟨value, 0, statusHeaders 200, key, none⟩, [])

/-- methods/fetch.js `fetch` (lines 32-45): a falsy key resolves with an
undefined body and a 500-status headers object; otherwise the caller's
options are merged over the load defaults and `doFetch` runs. -/
def fetchF (now : Int) (fuel : Nat) (agent : String → Except AgentErr AgentRes)
    (s : Store) (key url : String) (options : JSValue) :
    Option (Store × Except AgentErr FetchResp × List String) :=
  if key = "" then some (s, .ok ⟨.undefined, 0, statusHeaders 500, key, none⟩, [])
  else doFetchF now fuel agent s key url
    (.vobj (objAssign (objAssign [] defaultLoadOptions) (fieldsOf options)))

/-- The per-entry outcomes of `fetchAll`'s `keys.map(...)` (lines 62-74):
every entry's fetch runs — the synchronous embedding settles them in list
order, threading the store — with the batch options assigned under each
entry's own options. -/
def fetchSeq (now : Int) (fuel : Nat) (agent : String → Except AgentErr AgentRes)
    (batchOpts : JSValue) :
    Store → List (String × String × JSValue) →
      Option (Store × List (Except AgentErr FetchResp) × List String)
  | s, [] => some (s, [], [])
  | s, (k, u, op) :: rest =>
      match fetchF now fuel agent s k u
          (.vobj (objAssign (objAssign [] (fieldsOf batchOpts)) (fieldsOf op))) with
      | none => none
      | some (s1, r, calls) =>
          match fetchSeq now fuel agent batchOpts s1 rest with
          | none => none
          | some (s2, rs, calls2) => some (s2, r :: rs, calls ++ calls2)

/-- `Promise.all`: resolves with every outcome, in order, iff every
outcome resolved; rejects with the first rejection otherwise. -/
def promiseAll : List (Except AgentErr FetchResp) → Except AgentErr (List FetchResp)
  | [] => .ok []
  | .error e :: _ => .error e
  | .ok r :: rest =>
      (match promiseAll rest with
        | .ok rs => .ok (r :: rs)
        | .error e => .error e)

/-- methods/fetch.js `fetchAll` (lines 62-74):
`Promise.all(keys.map(args => fetch(store, key, url, assign({}, options,
opts))))` over an array of `[key, url, options]` tuples. -/
def fetchAllF (now : Int) (fuel : Nat) (agent : String → Except AgentErr AgentRes)
    (s : Store) (entries : List (String × String × JSValue)) (batchOpts : JSValue) :
    Option (Store × Except AgentErr (List FetchResp) × List String) :=
  match fetchSeq now fuel agent batchOpts s entries with
  | none => none
  | some (s1, rs, calls) => some (s1, promiseAll rs, calls)

/-- C6.  When the value cached at the key exists and is fresh — it carries
an expiry timestamp not yet passed — `fetch` resolves immediately with that
very value and a 200 status, leaves the store untouched, and hands zero
URLs to the HTTP transport collaborator, for every URL and options
argument. -/
theorem fetch_fresh_makes_no_transport_call
    (now : Int) (fuel : Nat) (agent : String → Except AgentErr AgentRes)
    (s : Store) (key url : String) (options : JSValue)
    (fs : List (String × JSValue)) (e : Int)
    (hkey : key ≠ "")
    (hval : dsGet s fuel key = some (.vobj fs))
    (hexp : getField fs "__expires" = some (.vnum e))
    (hfresh : ¬ now > e) :
    fetchF now fuel agent s key url options
      = some (s, .ok ⟨.vobj fs, 0, statusHeaders 200, key, none⟩, []) := by
  rw [fetchF, if_neg hkey, doFetchF, hval]
  have hx : hasExpired now (.vobj fs) = false := by
    rw [hasExpired, hexp]
    simpa using hfresh
  simp [hx, truthy]

/-- Witness for C6: a fresh cached object at `beep` (expiry 100, clock at
50) is served without any agent call; the agent used here fails every
request, so a transport call could not have produced this response. -/
theorem fetch_fresh_makes_no_transport_call_witness :
    "beep" ≠ ""
      ∧ dsGet ⟨.vobj [("beep", .vobj [("x", .vnum 1), ("__expires", .vnum 100)])], true, []⟩
          9 "beep" = some (.vobj [("x", .vnum 1), ("__expires", .vnum 100)])
      ∧ getField [("x", JSValue.vnum 1), ("__expires", JSValue.vnum 100)] "__expires"
          = some (.vnum 100)
      ∧ ¬ (50 : Int) > 100
      ∧ fetchF 50 9 (fun _ => .error ⟨503⟩)
          ⟨.vobj [("beep", .vobj [("x", .vnum 1), ("__expires", .vnum 100)])], true, []⟩
          "beep" "http:u" .undefined
        = some (⟨.vobj [("beep", .vobj [("x", .vnum 1), ("__expires", .vnum 100)])], true, []⟩,
            .ok ⟨.vobj [("x", .vnum 1), ("__expires", .vnum 100)], 0, statusHeaders 200,
              "beep", none⟩, []) :=
  ⟨by decide, by decide, by decide, by decide,
    fetch_fresh_makes_no_transport_call 50 9 (fun _ => .error ⟨503⟩)
      ⟨.vobj [("beep", .vobj [("x", .vnum 1), ("__expires", .vnum 100)])], true, []⟩
      "beep" "http:u" .undefined [("x", .vnum 1), ("__expires", .vnum 100)] 100
      (by decide) (by decide) (by decide) (by decide)⟩

/-- C9.  When the agent's load succeeds but the response body is falsy,
`load` stores nothing — the store (every key's value and its expiry
sidecar) comes back exactly unchanged — and the returned promise still
resolves with the agent's response. -/
theorem load_empty_body_stores_nothing
    (now : Int) (agent : String → Except AgentErr AgentRes)
    (s : Store) (key url : String) (o : JSValue) (res : AgentRes)
    (hres : agent url = .ok res) (hbody : truthy res.body = false) :
    loadF now agent s key url o = (s, .ok res, [url]) := by
  rw [loadF, hres]
  simp [hbody]

/-- Witness for C9: a successful load whose body is the empty string
leaves the store exactly as it was and resolves. -/
theorem load_empty_body_stores_nothing_witness :
    (fun _ : String => (Except.ok ⟨.vstr "", .vobj [("expires", .vnum 99)], 200, 3⟩ :
          Except AgentErr AgentRes)) "u"
        = .ok ⟨.vstr "", .vobj [("expires", .vnum 99)], 200, 3⟩
      ∧ truthy (JSValue.vstr "") = false
      ∧ loadF 0 (fun _ => .ok ⟨.vstr "", .vobj [("expires", .vnum 99)], 200, 3⟩)
          ⟨.vobj [("k", .vnum 4)], true, []⟩ "k" "u" .undefined
        = (⟨.vobj [("k", .vnum 4)], true, []⟩,
            .ok ⟨.vstr "", .vobj [("expires", .vnum 99)], 200, 3⟩, ["u"]) :=
  ⟨rfl, by decide,
    load_empty_body_stores_nothing 0
      (fun _ => (.ok ⟨.vstr "", .vobj [("expires", .vnum 99)], 200, 3⟩ :
        Except AgentErr AgentRes))
      ⟨.vobj [("k", .vnum 4)], true, []⟩ "k" "u" .undefined
      ⟨.vstr "", .vobj [("expires", .vnum 99)], 200, 3⟩ rfl (by decide)⟩

/-- The agent for the C2 counterexample: `u1` fails, `u2` succeeds. -/
def cexAgent : String → Except AgentErr AgentRes := fun u =>
  if u = "u1" then .error ⟨500⟩
  else .ok ⟨.vobj [("x", .vnum 1)], .vobj [], 200, 7⟩

/-- An empty writable store for the C2 counterexample. -/
def cexStore : Store := ⟨.vobj [], true, []⟩

/-- The C2 batch: two entries, the first failing, the second succeeding. -/
def cexEntries : List (String × String × JSValue) :=
  [("k1", "u1", .undefined), ("k2", "u2", .undefined)]

/-- Did this entry's fetch resolve? -/
def respOk : Except AgentErr FetchResp → Bool
  | .ok _ => true
  | .error _ => false

instance {ε α : Type} [DecidableEq ε] [DecidableEq α] : DecidableEq (Except ε α) := fun a b =>
  match a, b with
  | .ok x, .ok y =>
      if h : x = y then isTrue (by rw [h])
      else isFalse (fun hh => h (Except.ok.inj hh))
  | .error x, .error y =>
      if h : x = y then isTrue (by rw [h])
      else isFalse (fun hh => h (Except.error.inj hh))
  | .ok _, .error _ => isFalse (fun hh => Except.noConfusion hh)
  | .error _, .ok _ => isFalse (fun hh => Except.noConfusion hh)

/-- C2, counterexample.  The claim says one entry's failure never causes
the whole batch to reject.  With default options (no `staleIfError`), the
entry whose load fails rejects its fetch, and `fetchAll` — a plain
`Promise.all` — rejects the whole batch with that error, even though the
other entry's fetch ran and resolved (the per-entry outcomes are
`[rejected, resolved]`). -/
theorem fetchAll_rejects_when_one_entry_fails :
    (fetchAllF 0 5 cexAgent cexStore cexEntries .undefined).map (fun t => t.2.1)
        = some (.error ⟨500⟩)
      ∧ (fetchSeq 0 5 cexAgent .undefined cexStore cexEntries).map (fun t => t.2.1.map respOk)
        = some [false, true] := by
  refine ⟨by rfl, by rfl⟩

theorem promiseAll_ok_iff :
    ∀ (rs : List (Except AgentErr FetchResp)) (resps : List FetchResp),
      promiseAll rs = .ok resps ↔ rs = resps.map Except.ok := by
  intro rs
  induction rs with
  | nil => intro resps; cases resps <;> simp [promiseAll]
  | cons hd tl ih =>
      intro resps
      cases hd with
      | error e => cases resps <;> simp [promiseAll]
      | ok r =>
          cases resps with
          | nil => cases hpa : promiseAll tl <;> simp [promiseAll, hpa]
          | cons p ps =>
              have ih2 := ih ps
              cases hpa : promiseAll tl with
              | ok rs0 =>
                  rw [hpa] at ih2
                  simp only [promiseAll, hpa, List.map_cons]
                  constructor
                  · intro h
                    obtain ⟨h1, h2⟩ := by simpa using h
                    subst h1
                    have : tl = ps.map Except.ok := ih2.mp (by rw [h2])
                    rw [this]
                  · intro h
                    obtain ⟨h1, h2⟩ := by simpa using h
                    subst h1
                    have : Except.ok (ε := AgentErr) rs0 = .ok ps := ih2.mpr h2
                    simpa using this
              | error e0 =>
                  rw [hpa] at ih2
                  simp only [promiseAll, hpa, List.map_cons]
                  constructor
                  · intro h; cases h
                  · intro h
                    obtain ⟨h1, h2⟩ := by simpa using h
                    exact absurd (ih2.mpr h2) (by simp)

/-- C2 (amended).  `fetchAll` runs every entry's fetch and collects the
outcomes in request order, but collapses them with `Promise.all`: the
batch resolves — with one response per entry, in the same order — exactly
when every entry's fetch resolved (e.g. when failures are converted to
error-bearing resolutions by `staleIfError`); an entry whose fetch rejects
rejects the whole batch with that entry's error instead of settling
independently. -/
theorem fetchAll_collapses_entry_outcomes
    (now : Int) (fuel : Nat) (agent : String → Except AgentErr AgentRes)
    (b : JSValue) (s s1 : Store) (entries : List (String × String × JSValue))
    (rs : List (Except AgentErr FetchResp)) (calls : List String)
    (h : fetchSeq now fuel agent b s entries = some (s1, rs, calls)) :
    fetchAllF now fuel agent s entries b = some (s1, promiseAll rs, calls)
      ∧ ∀ resps, (promiseAll rs = .ok resps ↔ rs = resps.map Except.ok) := by
  constructor
  · rw [fetchAllF, h]
  · intro resps
    exact promiseAll_ok_iff rs resps

/-- Witness for C2's amended claim: a one-entry batch whose load succeeds;
the batch resolves with that entry's single outcome. -/
theorem fetchAll_collapses_entry_outcomes_witness :
    (∃ rs calls s1, fetchSeq 0 5 (fun _ => .ok ⟨.vnum 2, .vobj [], 200, 1⟩) .undefined
        ⟨.vobj [], true, []⟩ [("a", "u", .undefined)] = some (s1, rs, calls)
      ∧ fetchAllF 0 5 (fun _ => .ok ⟨.vnum 2, .vobj [], 200, 1⟩)
          ⟨.vobj [], true, []⟩ [("a", "u", .undefined)] .undefined = some (s1, promiseAll rs, calls)) := by
  refine ⟨[.ok ⟨.vnum 2, 1, .vobj [], "a", none⟩], ["u"],
    ⟨.vobj [("a", .vnum 2)], true, []⟩, by rfl, ?_⟩
  exact (fetchAll_collapses_entry_outcomes 0 5 (fun _ => .ok ⟨.vnum 2, .vobj [], 200, 1⟩)
    .undefined ⟨.vobj [], true, []⟩ ⟨.vobj [("a", .vnum 2)], true, []⟩
    [("a", "u", .undefined)] [.ok ⟨.vnum 2, 1, .vobj [], "a", none⟩] ["u"] (by rfl)).1

/-! ## FetchableDataStore (compiled class, second file of part_002) -/

/-- The FetchableDataStore state the `fetch` surface touches: the inherited
DataStore state plus the fetched-key registry `_fetchedKeys`. -/
structure FStore where
  store : Store
  fetchedKeys : List String

/-- The value `FetchableDataStore.prototype.fetch` returns: `undefined`
(missing or unusable key), one routed fetch promise, or a `Promise.all`
over a batch; `none` inside marks a `get` whose alias walk never
completes. -/
inductive FdsFetchResult where
  | noRet : FdsFetchResult
  | single : Option (Except AgentErr FetchResp) → FdsFetchResult
  | batch : Option (Except AgentErr (List FetchResp)) → FdsFetchResult

/-- Modelled from the spec: `_routeHandledMethod` (spec §4.2) at the
handled method `fetch` (implementation methods/fetch.js, signature
`['key', 'url', 'options']`), registered by the FetchableDataStore
constructor.  With no registered handlers call the fetch method directly
on the call arguments, the key's leading separator stripped (the fast
path); otherwise build the context by copying the call arguments into
fields named by the signature, match handlers on the separator-stripped
key, run the matching handlers on the shared context in registration
order, and call the method on the arguments reconstructed from the
(possibly mutated) context per the signature. -/
def routeFetch (now : Int) (fuel : Nat) (agent : String → Except AgentErr AgentRes)
    (s : Store) (key : String) (url options : JSValue) :
    Option (Store × Except AgentErr FetchResp × List String) :=
  let key' := stripKey key
  if s.handlers.isEmpty then fetchF now fuel agent s key' (strVal url) options
  else
    let ctx0 := ctxInit ["key", "url", "options"] [.vstr key, url, options]
    let ctx := s.handlers.foldl
      (fun c e => if isMatchKey key' e.hmatch then e.handler.run c else c) ctx0
    let args := ctxToArguments ["key", "url", "options"] ctx
    fetchF now fuel agent s (strVal (args.getD 0 .undefined)) (strVal (args.getD 1 .undefined))
      (args.getD 2 .undefined)

/-! ## The handled-method pipeline binds and reconstructs per the signature -/

/-- The `Promise.all` fold of the prototype's batch branch: route each
`key: url` field in turn, recording the key in `_fetchedKeys` first. -/
def fdsFetchBatch (now : Int) (fuel : Nat) (agent : String → Except AgentErr AgentRes)
    (o : JSValue) :
    FStore → List (String × JSValue) →
      Option (FStore × List (Except AgentErr FetchResp) × List String)
  | f, [] => some (f, [], [])
  | f, (k, u) :: rest =>
      let keys1 := if f.fetchedKeys.contains k then f.fetchedKeys else f.fetchedKeys ++ [k]
      match routeFetch now fuel agent f.store k u o with
      | none => none
      | some (s1, r, calls) =>
          match fdsFetchBatch now fuel agent o ⟨s1, keys1⟩ rest with
          | none => none
          | some (f2, rs, calls2) => some (f2, r :: rs, calls ++ calls2)

/-- part_002 `FetchableDataStore.prototype.fetch` (lines 292-310): a falsy
key returns `undefined` at once — nothing is touched; otherwise merge the
default load options, record the key(s) in `_fetchedKeys`, and route one
fetch for a string key or a `Promise.all` of routed fetches for a
`key: url` hash (any other key shape falls through to `undefined`). -/
def fdsFetch (now : Int) (fuel : Nat) (agent : String → Except AgentErr AgentRes)
    (f : FStore) (key url options : JSValue) :
    FStore × FdsFetchResult × List String :=
  if truthy key = false then (f, .noRet, [])
  else
    let o : JSValue := .vobj (objAssign (objAssign [] defaultLoadOptions) (fieldsOf options))
    match key with
    | .vstr k =>
        let keys1 := if f.fetchedKeys.contains k then f.fetchedKeys else f.fetchedKeys ++ [k]
        (match routeFetch now fuel agent f.store k url o with
          | none => (⟨f.store, keys1⟩, .single none, [])
          | some (s1, r, calls) => (⟨s1, keys1⟩, .single (some r), calls))
    | .vobj fs =>
        (match fdsFetchBatch now fuel agent o f fs with
          | none => (f, .batch none, [])
          | some (f2, rs, calls) => (f2, .batch (some (promiseAll rs)), calls))
    | _ => (f, .noRet, [])

/-- C7.  The three misuse shapes are silent no-ops: `set` with an empty or
missing key returns with the store untouched (DataStore.js:132), `set` on
a store built with `isWritable: false` likewise, and
`FetchableDataStore.fetch` with a missing key returns `undefined` without
touching the store or the transport (part_002:295).  None of these paths
can throw — each is an early return before any work happens. -/
theorem caller_misuse_is_silent_noop :
    (∀ (s : Store) (v o : JSValue), dsSet s (.vstr "") v o = s)
      ∧ (∀ (s : Store) (v o : JSValue), dsSet s .undefined v o = s)
      ∧ (∀ (d : JSValue) (h : List HandlerEntry) (k v o : JSValue),
          dsSet ⟨d, false, h⟩ k v o = ⟨d, false, h⟩)
      ∧ (∀ (now : Int) (fuel : Nat) (agent : String → Except AgentErr AgentRes)
          (f : FStore) (url options : JSValue),
          fdsFetch now fuel agent f .undefined url options = (f, .noRet, [])) := by
  refine ⟨?_, ?_, ?_, ?_⟩
  · intro s v o
    simp [dsSet, truthy]
  · intro s v o
    simp [dsSet, truthy]
  · intro d h k v o
    simp [dsSet]
  · intro now fuel agent f url options
    simp [fdsFetch, truthy]

/-! ## destroy / abort (part_002 FetchableDataStore, DataStore.js destroy)

The externally visible work of `destroy` and `abort` — cancelling timers,
aborting in-flight requests, destroying cursors, dropping listeners — goes
to collaborators (`clock`, `agent`, the cursors, the emitter), so these
two methods are embedded as state transformers that also emit the ordered
list of collaborator effects they trigger. -/

/-- The full FetchableDataStore state that `destroy` touches. -/
structure FDS where
  data : JSValue
  handlers : List HandlerEntry
  cursors : List String
  serialisableKeys : List (String × Bool)
  fetchedKeys : List String
  destroyed : Bool
  isBrowser : Bool

/-- A collaborator effect triggered by `abort`/`destroy`. -/
inductive Effect where
  | agentAbortAll : Effect
  | clockCancel : String → Effect
  | destroyCursor : String → Effect
  | removeAllListeners : Effect
deriving DecidableEq

/-- part_002 `FetchableDataStore.prototype.abort` with no key (lines
321-332): in the browser, abort every tracked in-flight agent request
(skipped on the server — "too dangerous"); cancel the pending clock timer
of every fetched key; clear the fetched-key registry. -/
def abortAllF (f : FDS) : FDS × List Effect :=
  ({f with fetchedKeys := []},
    (if f.isBrowser then [Effect.agentAbortAll] else [])
      ++ f.fetchedKeys.map Effect.clockCancel)

/-- DataStore.js `destroy` (lines 182-194): destroy every cursor, mark the
store destroyed, clear cursors, data, handlers and the serialisability
map, and remove all listeners. -/
def dsDestroyF (f : FDS) : FDS × List Effect :=
  ({ f with
      destroyed := true
      cursors := []
      data := .vobj []
      handlers := []
      serialisableKeys := [] },
    f.cursors.map Effect.destroyCursor ++ [Effect.removeAllListeners])

/-- part_002 `FetchableDataStore.prototype.destroy` (lines 347-350):
`this.abort(); DataStore.prototype.destroy.call(this)`. -/
def fdsDestroyF (f : FDS) : FDS × List Effect :=
  let a := abortAllF f
  let d := dsDestroyF a.1
  (d.1, a.2 ++ d.2)

/-- C5, counterexample.  The claim says `destroy()` on a fetch-capable
store does not itself cancel outstanding fetch operations and only
destroys cursors and clears state.  On a server-side store with one
outstanding fetched key, `destroy` emits the cancellation of that key's
pending timer (it calls `abort()` first), refuting both parts. -/
theorem destroy_cancels_outstanding_fetch :
    ((fdsDestroyF ⟨.vobj [("beep", .vnum 1)], [], [], [], ["beep"], false, false⟩).2.contains
        (Effect.clockCancel "beep") = true)
      ∧ (fdsDestroyF ⟨.vobj [("beep", .vnum 1)], [], [], [], ["beep"], false, false⟩).2
        = [Effect.clockCancel "beep", Effect.removeAllListeners] := by
  refine ⟨by rfl, by rfl⟩

/-- C5 (amended).  `FetchableDataStore.destroy` first calls `abort()` —
cancelling the pending retry/timeout timer of every fetched key and, in
the browser, aborting all tracked in-flight requests (on the server,
in-flight network calls are deliberately left running) — and then runs the
base destroy: destroying every cursor, marking the store destroyed, and
clearing cursors, data, handlers, the serialisability map, the fetched-key
registry and the listeners.  Callers need not abort before destroying,
except that on the server in-flight transport calls survive either way. -/
theorem fetchable_destroy_aborts_then_clears (f : FDS) :
    fdsDestroyF f
      = ({ f with
            destroyed := true
            cursors := []
            data := .vobj []
            handlers := []
            serialisableKeys := []
            fetchedKeys := [] },
          (if f.isBrowser then [Effect.agentAbortAll] else [])
            ++ f.fetchedKeys.map Effect.clockCancel
            ++ f.cursors.map Effect.destroyCursor ++ [Effect.removeAllListeners]) := by
  rw [fdsDestroyF, abortAllF, dsDestroyF]
  simp [List.append_assoc]

/-- Witness for C5's amended equation at a concrete store. -/
theorem fetchable_destroy_aborts_then_clears_witness :
    fdsDestroyF ⟨.vobj [], [], ["/c"], [], ["k1", "k2"], false, true⟩
      = (⟨.vobj [], [], [], [], [], true, true⟩,
          [Effect.agentAbortAll, Effect.clockCancel "k1", Effect.clockCancel "k2",
            Effect.destroyCursor "/c", Effect.removeAllListeners]) := by
  rw [fetchable_destroy_aborts_then_clears ⟨.vobj [], [], ["/c"], [], ["k1", "k2"], false, true⟩]
  rfl

end YrData
